import Mathlib

/-!
Verification development for the numerical Poisson-Boltzmann solver
(pbe_solver/pbe_solver.py).  The solver's floating-point arrays are
modelled as real-valued functions on natural-number indices, with the
grid size N carried explicitly (in the source it is recovered as
psi.size).  The in-place Gauss-Seidel sweep of iteration_loop is
modelled operationally: each assignment statement becomes a
Function.update of the potential buffer, and the interior loop
for i in range(1, N-1) becomes a fold over the index list.
The unbounded while-loop is modelled with an explicit fuel parameter:
a run returns none when the convergence test was not met within fuel
sweeps, mirroring the fact that the source loop has no iteration cap.
-/

noncomputable section

/-- Parameter record for iteration_loop: the scalar arguments and the
six read-only profile arrays, plus the grid size N (in the source,
N = psi.size). -/
structure Params where
  N : ℕ
  omega : ℝ
  dz_hat : ℝ
  val_cat : ℝ
  val_an : ℝ
  sigma_hat : ℝ
  c_imp : ℝ
  eps : ℕ → ℝ
  rho_hat : ℕ → ℝ
  pmf_cat : ℕ → ℝ
  pmf_an : ℕ → ℝ
  pmf_imp_cat : ℕ → ℝ
  pmf_imp_an : ℕ → ℝ

/-- Local charge density at point i, read off the current potential
buffer psi: cation and anion Boltzmann terms, the fixed external
charge rho_hat, and the impurity contribution scaled by c_imp
(source lines computing rho_imp_i and rho_i). -/
def rho_loc (p : Params) (psi : ℕ → ℝ) (i : ℕ) : ℝ :=
  Real.exp (-p.val_cat * psi i - p.pmf_cat i) - Real.exp (p.val_an * psi i - p.pmf_an i) +
    p.rho_hat i +
    p.c_imp * (Real.exp (-psi i - p.pmf_imp_cat i) - Real.exp (psi i - p.pmf_imp_an i))

/-- The wall (index 0) update: psi[0] = (1-omega)*psi_prev[0] + omega*psi_0
with psi_0 = psi[1] + 2*dz_hat*sigma_hat*(eps[1]+3*eps[0])/8
           + rho_0*dz_hat^2*eps[0]/2. -/
def wall_update (p : Params) (psi_prev psi : ℕ → ℝ) : ℕ → ℝ :=
  Function.update psi 0
    ((1 - p.omega) * psi_prev 0 + p.omega *
      (psi 1 + 2 * p.dz_hat * p.sigma_hat * (p.eps 1 + 3 * p.eps 0) / 8 +
        rho_loc p psi 0 * p.dz_hat ^ 2 * p.eps 0 / 2))

/-- One interior assignment psi[i] = (1-omega)*psi_prev[i] + omega*psi_i,
with the variable-permittivity three-point stencil of the source. -/
def interior_step (p : Params) (psi_prev psi : ℕ → ℝ) (i : ℕ) : ℕ → ℝ :=
  Function.update psi i
    ((1 - p.omega) * psi_prev i + p.omega *
      (psi (i + 1) * (-p.eps (i + 1) + 4 * p.eps i + p.eps (i - 1)) / (8 * p.eps i) +
        psi (i - 1) * (p.eps (i + 1) + 4 * p.eps i - p.eps (i - 1)) / (8 * p.eps i) +
        rho_loc p psi i * p.dz_hat ^ 2 * p.eps i / 2))

/-- The interior loop for i in range(1, N-1), generalized over the
number k of interior points processed: a left fold over [1, ..., k]. -/
def interiorFold (p : Params) (psi_prev : ℕ → ℝ) (k : ℕ) (psi : ℕ → ℝ) : ℕ → ℝ :=
  (List.range' 1 k).foldl (fun a i => interior_step p psi_prev a i) psi

/-- The bulk (index N-1) update: psi[-1] = (1-omega)*psi_prev[-1] + omega*psi_N
with psi_N = psi[-2] + rho_N*dz_hat^2*eps[-1]/2 (zero-field condition). -/
def bulk_update (p : Params) (psi_prev psi : ℕ → ℝ) : ℕ → ℝ :=
  Function.update psi (p.N - 1)
    ((1 - p.omega) * psi_prev (p.N - 1) + p.omega *
      (psi (p.N - 2) + rho_loc p psi (p.N - 1) * p.dz_hat ^ 2 * p.eps (p.N - 1) / 2))

/-- One full relaxation sweep of the while-loop body: wall point,
then the interior points in increasing order, then the bulk point.
psi_prev is the previous-sweep buffer, psi the working buffer. -/
def sweepAux (p : Params) (psi_prev psi : ℕ → ℝ) : ℕ → ℝ :=
  bulk_update p psi_prev (interiorFold p psi_prev (p.N - 2) (wall_update p psi_prev psi))

/-- A sweep started from a loop head, where the working buffer and the
previous-sweep buffer hold the same values. -/
def sweep (p : Params) (x : ℕ → ℝ) : ℕ → ℝ := sweepAux p x x

/-- Root-mean-square sweep-to-sweep difference
sqrt(sum_i (psi[i]-psi_prev[i])^2 / (N-1)) (source lines 162-165). -/
def relErr (N : ℕ) (psi psi_prev : ℕ → ℝ) : ℝ :=
  Real.sqrt ((∑ i ∈ Finset.range N, (psi i - psi_prev i) ^ 2) / ((N : ℝ) - 1))

/-- Default convergence tolerance of iteration_loop (tol=1E-10). -/
def tolDefault : ℝ := 1e-10

/-- The while rel_err > tol loop, with explicit fuel: each round runs a
sweep, computes the RMS difference against the previous-sweep buffer,
returns the potential if it is within tol, and otherwise copies the
current array into the previous-sweep buffer and continues.  none
models non-termination within the given number of sweeps (the source
loop has no iteration cap). -/
def loopFuel (p : Params) (tol : ℝ) : ℕ → (ℕ → ℝ) → (ℕ → ℝ) → Option (ℕ → ℝ)
  | 0, _, _ => none
  | n + 1, psi, psi_prev =>
    let psiNew := sweepAux p psi_prev psi
    if relErr p.N psiNew psi_prev ≤ tol then some psiNew
    else loopFuel p tol n psiNew psiNew

/-- iteration_loop: the previous-sweep buffer starts as an element-wise
copy of psi_start, then the relaxation loop runs to convergence. -/
def iteration_loop (p : Params) (tol : ℝ) (fuel : ℕ) (psi_start : ℕ → ℝ) :
    Option (ℕ → ℝ) :=
  loopFuel p tol fuel psi_start psi_start

/-- The interior fold processes one more point by updating index k+1. -/
lemma interiorFold_succ (p : Params) (prev psi : ℕ → ℝ) (k : ℕ) :
    interiorFold p prev (k + 1) psi =
      interior_step p prev (interiorFold p prev k psi) (k + 1) := by
  unfold interiorFold
  rw [List.range'_concat, List.foldl_append]
  simp [Nat.add_comm]

/-- Indices outside [1, k] are untouched by the interior fold. -/
lemma interiorFold_stable (p : Params) (prev psi : ℕ → ℝ) :
    ∀ k j, (j = 0 ∨ k < j) → interiorFold p prev k psi j = psi j := by
  intro k
  induction k with
  | zero => intro j _; rfl
  | succ n ih =>
    intro j hj
    rw [interiorFold_succ]
    simp only [interior_step]
    rw [Function.update_noteq (by omega)]
    exact ih j (by omega)

/-- Once the fold has passed index j, later steps leave index j alone. -/
lemma interiorFold_settled (p : Params) (prev psi : ℕ → ℝ) :
    ∀ k j, 1 ≤ j → j ≤ k → interiorFold p prev k psi j = interiorFold p prev j psi j := by
  intro k
  induction k with
  | zero => intro j h1 h2; omega
  | succ n ih =>
    intro j h1 h2
    rcases Nat.lt_or_ge j (n + 1) with h | h
    · rw [interiorFold_succ]
      simp only [interior_step]
      rw [Function.update_noteq (by omega)]
      exact ih j h1 (by omega)
    · have hj : j = n + 1 := by omega
      subst hj; rfl

/-- The local charge density reads the potential only at its own index. -/
lemma rho_loc_congr (p : Params) (f g : ℕ → ℝ) (i : ℕ) (h : f i = g i) :
    rho_loc p f i = rho_loc p g i := by
  unfold rho_loc; rw [h]

/-- Value written by the interior fold at index m+1: it reads the input
state at indices m+1 and m+2 (not yet processed) and its own output at
index m (already processed). -/
lemma interiorFold_value (p : Params) (prev psi : ℕ → ℝ) (m : ℕ) :
    interiorFold p prev (m + 1) psi (m + 1) =
      (1 - p.omega) * prev (m + 1) + p.omega *
        (psi (m + 2) * (-p.eps (m + 2) + 4 * p.eps (m + 1) + p.eps m) / (8 * p.eps (m + 1)) +
          interiorFold p prev m psi m *
            (p.eps (m + 2) + 4 * p.eps (m + 1) - p.eps m) / (8 * p.eps (m + 1)) +
          rho_loc p psi (m + 1) * p.dz_hat ^ 2 * p.eps (m + 1) / 2) := by
  rw [interiorFold_succ]
  simp only [interior_step, Nat.add_sub_cancel]
  rw [Function.update_same]
  have hS2 : interiorFold p prev m psi (m + 2) = psi (m + 2) :=
    interiorFold_stable p prev psi m (m + 2) (Or.inr (by omega))
  have hS1 : interiorFold p prev m psi (m + 1) = psi (m + 1) :=
    interiorFold_stable p prev psi m (m + 1) (Or.inr (by omega))
  rw [hS2, rho_loc_congr p _ psi (m + 1) hS1]

/-- C1: each relaxation sweep updates every interior point i
(1 <= i <= N-2) by blending the previous-sweep value with the
three-point variable-permittivity candidate, where the right
neighbour psi[i+1] and the centre value entering the local charge
density are the pre-update values of the current sweep, while the
left neighbour psi[i-1] is the value already written by the current
sweep (Gauss-Seidel ordering in increasing i). -/
theorem interior_sweep_gauss_seidel (p : Params) (prev cur : ℕ → ℝ) (i : ℕ)
    (h1 : 1 ≤ i) (h2 : i ≤ p.N - 2) :
    sweepAux p prev cur i =
      (1 - p.omega) * prev i + p.omega *
        (cur (i + 1) * (-p.eps (i + 1) + 4 * p.eps i + p.eps (i - 1)) / (8 * p.eps i) +
          sweepAux p prev cur (i - 1) *
            (p.eps (i + 1) + 4 * p.eps i - p.eps (i - 1)) / (8 * p.eps i) +
          rho_loc p cur i * p.dz_hat ^ 2 * p.eps i / 2) := by
  have hN : 3 ≤ p.N := by omega
  obtain ⟨m, rfl⟩ : ∃ m, i = m + 1 := ⟨i - 1, by omega⟩
  set W := wall_update p prev cur with hWdef
  have hbulk : ∀ j, j ≠ p.N - 1 →
      sweepAux p prev cur j = interiorFold p prev (p.N - 2) W j := by
    intro j hj
    unfold sweepAux bulk_update
    rw [Function.update_noteq hj]
  have hs := hbulk (m + 1) (by omega)
  have hsm := hbulk ((m + 1) - 1) (by omega)
  simp only [Nat.add_sub_cancel] at hsm
  rw [hs, interiorFold_settled p prev W (p.N - 2) (m + 1) (by omega) h2,
    interiorFold_value]
  have hW2 : W (m + 2) = cur (m + 2) := by
    rw [hWdef]; unfold wall_update; rw [Function.update_noteq (by omega)]
  have hW1 : W (m + 1) = cur (m + 1) := by
    rw [hWdef]; unfold wall_update; rw [Function.update_noteq (by omega)]
  have hFm : interiorFold p prev m W m = interiorFold p prev (p.N - 2) W m := by
    rcases Nat.eq_zero_or_pos m with h0 | h0
    · subst h0
      rw [interiorFold_stable p prev W 0 0 (Or.inl rfl),
        interiorFold_stable p prev W (p.N - 2) 0 (Or.inl rfl)]
    · rw [interiorFold_settled p prev W (p.N - 2) m h0 (by omega)]
  simp only [Nat.add_sub_cancel]
  rw [hW2, hFm, ← hsm, rho_loc_congr p W cur (m + 1) hW1]

/-- The all-zero array, used as a concrete input below. -/
def zfn : ℕ → ℝ := fun _ => 0

/-- A concrete parameter set: N = 3, omega = 1, unit permittivity,
all other scalars and profiles zero. -/
def pW : Params := ⟨3, 1, 0, 1, 1, 0, 0, fun _ => 1, zfn, zfn, zfn, zfn, zfn⟩

/-- Witness for C1 at the concrete interior point i = 1 of a
three-point grid. -/
theorem interior_sweep_gauss_seidel_witness :
    (1 ≤ 1 ∧ 1 ≤ pW.N - 2) ∧
      sweepAux pW zfn zfn 1 =
        (1 - pW.omega) * zfn 1 + pW.omega *
          (zfn 2 * (-pW.eps 2 + 4 * pW.eps 1 + pW.eps 0) / (8 * pW.eps 1) +
            sweepAux pW zfn zfn 0 *
              (pW.eps 2 + 4 * pW.eps 1 - pW.eps 0) / (8 * pW.eps 1) +
            rho_loc pW zfn 1 * pW.dz_hat ^ 2 * pW.eps 1 / 2) :=
  ⟨⟨le_refl 1, by decide⟩,
    interior_sweep_gauss_seidel pW zfn zfn 1 (le_refl 1) (by decide)⟩

/-- C3: on every sweep the wall point (index 0) is written from the
pre-sweep values: candidate psi[1] + dz_hat*sigma_hat*(eps[1]+3*eps[0])/4
+ rho_0*dz_hat^2*eps[0]/2 with rho_0 the local charge density at
index 0, blended with the previous-sweep value by omega.  The source
writes the surface-charge term as 2*dz_hat*sigma_hat*(eps[1]+3*eps[0])/8,
which equals the claimed form. -/
theorem wall_update_first (p : Params) (prev cur : ℕ → ℝ) (h : 2 ≤ p.N) :
    sweepAux p prev cur 0 =
      (1 - p.omega) * prev 0 + p.omega *
        (cur 1 + p.dz_hat * p.sigma_hat * (p.eps 1 + 3 * p.eps 0) / 4 +
          rho_loc p cur 0 * p.dz_hat ^ 2 * p.eps 0 / 2) := by
  have h0 : sweepAux p prev cur 0 =
      interiorFold p prev (p.N - 2) (wall_update p prev cur) 0 := by
    unfold sweepAux bulk_update
    rw [Function.update_noteq (by omega)]
  rw [h0, interiorFold_stable p prev _ _ 0 (Or.inl rfl)]
  unfold wall_update
  rw [Function.update_same]
  ring

/-- Witness for C3 on a concrete two-point grid. -/
theorem wall_update_first_witness :
    2 ≤ pW.N ∧
      sweepAux pW zfn zfn 0 =
        (1 - pW.omega) * zfn 0 + pW.omega *
          (zfn 1 + pW.dz_hat * pW.sigma_hat * (pW.eps 1 + 3 * pW.eps 0) / 4 +
            rho_loc pW zfn 0 * pW.dz_hat ^ 2 * pW.eps 0 / 2) :=
  ⟨by decide, wall_update_first pW zfn zfn (by decide)⟩

/-- Characterization of the fuelled convergence loop started at a loop
head (working buffer equal to the previous-sweep buffer): it returns
precisely when some sweep first brings the RMS sweep-to-sweep
difference within tol, and then returns the array produced by that
sweep. -/
lemma loopFuel_some_iff (p : Params) (tol : ℝ) :
    ∀ (fuel : ℕ) (x r : ℕ → ℝ),
      loopFuel p tol fuel x x = some r ↔
        ∃ k, k < fuel ∧
          relErr p.N ((sweep p)^[k + 1] x) ((sweep p)^[k] x) ≤ tol ∧
          (∀ j, j < k → tol < relErr p.N ((sweep p)^[j + 1] x) ((sweep p)^[j] x)) ∧
          r = (sweep p)^[k + 1] x := by
  intro fuel
  induction fuel with
  | zero => intro x r; simp [loopFuel]
  | succ n ih =>
    intro x r
    have hsw : sweepAux p x x = sweep p x := rfl
    have hstep : loopFuel p tol (n + 1) x x =
        if relErr p.N (sweep p x) x ≤ tol then some (sweep p x)
        else loopFuel p tol n (sweep p x) (sweep p x) := rfl
    rw [hstep]
    have hshift : ∀ m : ℕ, (sweep p)^[m] (sweep p x) = (sweep p)^[m + 1] x := by
      intro m
      rw [Function.iterate_succ_apply]
    by_cases h : relErr p.N (sweep p x) x ≤ tol
    · rw [if_pos h]
      constructor
      · intro hr
        refine ⟨0, Nat.succ_pos n, ?_, by omega, ?_⟩
        · simpa using h
        · simpa using (Option.some_inj.mp hr).symm
      · rintro ⟨k, _, hk1, hk2, rfl⟩
        have hk0 : k = 0 := by
          by_contra hne
          have := hk2 0 (by omega)
          simp only [Function.iterate_one, Function.iterate_zero, id] at this
          exact absurd h (not_le.mpr this)
        subst hk0
        simp
    · rw [if_neg h]
      rw [ih (sweep p x) r]
      constructor
      · rintro ⟨k, hk, h1, h2, h3⟩
        refine ⟨k + 1, by omega, ?_, ?_, ?_⟩
        · rw [← hshift (k + 1), ← hshift k]; exact h1
        · intro j hj
          cases j with
          | zero =>
            simpa using not_le.mp h
          | succ m =>
            rw [← hshift (m + 1), ← hshift m]
            exact h2 m (by omega)
        · rw [← hshift (k + 1)]; exact h3
      · rintro ⟨k, hk, h1, h2, h3⟩
        obtain ⟨k', rfl⟩ : ∃ k', k = k' + 1 := by
          cases k with
          | zero =>
            exact absurd (by simpa using h1) h
          | succ m => exact ⟨m, rfl⟩
        refine ⟨k', by omega, ?_, ?_, ?_⟩
        · rw [hshift (k' + 1), hshift k']; exact h1
        · intro j hj
          rw [hshift (j + 1), hshift j]
          exact h2 (j + 1) (by omega)
        · rw [hshift (k' + 1)]; exact h3

/-- C2: iteration_loop (with previous-sweep buffer initialized to a
copy of the start array) returns exactly when, after a full sweep, the
RMS sweep-to-sweep difference drops to at most tol; while it exceeds
tol, the loop copies the array into the previous-sweep buffer and
sweeps again.  The fuel parameter makes the absence of an iteration
cap explicit: for every fuel bound, if no sweep within the bound meets
the test the run yields none (non-termination), never an error value.
The default tolerance is 1e-10. -/
theorem convergence_exit_criterion :
    tolDefault = 1 / 10 ^ 10 ∧
      ∀ (p : Params) (tol : ℝ) (fuel : ℕ) (x r : ℕ → ℝ),
        iteration_loop p tol fuel x = some r ↔
          ∃ k, k < fuel ∧
            relErr p.N ((sweep p)^[k + 1] x) ((sweep p)^[k] x) ≤ tol ∧
            (∀ j, j < k → tol < relErr p.N ((sweep p)^[j + 1] x) ((sweep p)^[j] x)) ∧
            r = (sweep p)^[k + 1] x :=
  ⟨by norm_num [tolDefault], fun p tol fuel x r => loopFuel_some_iff p tol fuel x r⟩

/-- Witness for C2: the characterization instantiated at a concrete
parameter set, tolerance, fuel bound and start array. -/
theorem convergence_exit_criterion_witness :
    tolDefault = 1 / 10 ^ 10 ∧
      (iteration_loop pW tolDefault 1 zfn = some zfn ↔
        ∃ k, k < 1 ∧
          relErr pW.N ((sweep pW)^[k + 1] zfn) ((sweep pW)^[k] zfn) ≤ tolDefault ∧
          (∀ j, j < k →
            tolDefault < relErr pW.N ((sweep pW)^[j + 1] zfn) ((sweep pW)^[j] zfn)) ∧
          zfn = (sweep pW)^[k + 1] zfn) :=
  ⟨convergence_exit_criterion.1, convergence_exit_criterion.2 pW tolDefault 1 zfn zfn⟩

/-- eps_avg of main: the source computes eps_avg = 1/np.average(eps),
the reciprocal of the arithmetic mean of the N-entry
inverse-permittivity profile. -/
def eps_avg (N : ℕ) (eps : ℕ → ℝ) : ℝ := 1 / ((∑ i ∈ Finset.range N, eps i) / N)

/-- psi_start of main: the Gouy-Chapman warm start
(sigma_hat/eps_avg)*exp(-zz_hat). -/
def psi_start (N : ℕ) (eps : ℕ → ℝ) (sigma_hat : ℝ) (zz_hat : ℕ → ℝ) : ℕ → ℝ :=
  fun i => sigma_hat / eps_avg N eps * Real.exp (-zz_hat i)

/-- The starting iterate as the claim words it, with eps_avg taken to
be the arithmetic mean of the inverse-permittivity profile itself
(for comparison against the source definition). -/
def psi_start_claimed (N : ℕ) (eps : ℕ → ℝ) (sigma_hat : ℝ) (zz_hat : ℕ → ℝ) : ℕ → ℝ :=
  fun i => sigma_hat / ((∑ j ∈ Finset.range N, eps j) / N) * Real.exp (-zz_hat i)

/-- Counterexample to C4: with N = 2, a constant inverse-permittivity
profile 1/2, sigma_hat = 1 and zz_hat = 0, the code's starting iterate
is 1/2 at index 0, while the claimed formula (sigma_hat divided by the
arithmetic mean of eps) gives 2. -/
theorem psi_start_claim_false :
    psi_start 2 (fun _ => (1 : ℝ) / 2) 1 (fun _ => 0) 0 ≠
      psi_start_claimed 2 (fun _ => (1 : ℝ) / 2) 1 (fun _ => 0) 0 := by
  unfold psi_start psi_start_claimed eps_avg
  norm_num [Finset.sum_const, Finset.card_range, Real.exp_zero]

/-- C4 as amended: the starting iterate is
psi[i] = sigma_hat * mean(eps) * exp(-zz_hat[i]), i.e. the eps_avg the
code divides by is the reciprocal of the arithmetic mean of the
inverse-permittivity profile, not that mean itself. -/
theorem psi_start_formula (N : ℕ) (eps : ℕ → ℝ) (sigma_hat : ℝ)
    (zz_hat : ℕ → ℝ) (i : ℕ) :
    psi_start N eps sigma_hat zz_hat i =
      sigma_hat * ((∑ j ∈ Finset.range N, eps j) / N) * Real.exp (-zz_hat i) := by
  unfold psi_start eps_avg
  rw [one_div, div_eq_mul_inv, inv_inv]

/-- Updating the all-zero array with the value 0 leaves it unchanged. -/
lemma update_zero_fn (i : ℕ) : Function.update zfn i (0 : ℝ) = zfn := by
  funext j
  rcases eq_or_ne j i with rfl | hj
  · rw [Function.update_same]; rfl
  · rw [Function.update_noteq hj]

/-- With zero PMFs, zero external charge and zero impurity
concentration, the local charge density of the all-zero potential
vanishes (the cation and anion Boltzmann factors cancel). -/
lemma rho_loc_zfn (p : Params) (h2 : p.c_imp = 0)
    (h3 : ∀ i, p.pmf_cat i = 0) (h4 : ∀ i, p.pmf_an i = 0)
    (h6 : ∀ i, p.rho_hat i = 0) (i : ℕ) :
    rho_loc p zfn i = 0 := by
  unfold rho_loc zfn
  rw [h3 i, h4 i, h6 i, h2]
  simp

/-- The wall update maps the all-zero state to itself when the surface
charge and the local charge density vanish. -/
lemma wall_update_zfn (p : Params) (h1 : p.sigma_hat = 0)
    (hrho : rho_loc p zfn 0 = 0) :
    wall_update p zfn zfn = zfn := by
  have hval : (1 - p.omega) * zfn 0 + p.omega *
      (zfn 1 + 2 * p.dz_hat * p.sigma_hat * (p.eps 1 + 3 * p.eps 0) / 8 +
        rho_loc p zfn 0 * p.dz_hat ^ 2 * p.eps 0 / 2) = 0 := by
    rw [hrho, h1]
    simp [zfn]
  unfold wall_update
  rw [hval, update_zero_fn]

/-- One interior assignment maps the all-zero state to itself when the
local charge density vanishes. -/
lemma interior_step_zfn (p : Params) (i : ℕ) (hrho : rho_loc p zfn i = 0) :
    interior_step p zfn zfn i = zfn := by
  have hval : (1 - p.omega) * zfn i + p.omega *
      (zfn (i + 1) * (-p.eps (i + 1) + 4 * p.eps i + p.eps (i - 1)) / (8 * p.eps i) +
        zfn (i - 1) * (p.eps (i + 1) + 4 * p.eps i - p.eps (i - 1)) / (8 * p.eps i) +
        rho_loc p zfn i * p.dz_hat ^ 2 * p.eps i / 2) = 0 := by
    rw [hrho]
    simp [zfn]
  unfold interior_step
  rw [hval, update_zero_fn]

/-- The interior loop maps the all-zero state to itself when the local
charge density vanishes everywhere. -/
lemma interiorFold_zfn (p : Params)
    (hrho : ∀ i, rho_loc p zfn i = 0) :
    ∀ l : List ℕ, l.foldl (fun a i => interior_step p zfn a i) zfn = zfn := by
  intro l
  induction l with
  | nil => rfl
  | cons a t ih =>
    show t.foldl _ (interior_step p zfn zfn a) = zfn
    rw [interior_step_zfn p a (hrho a)]
    exact ih

/-- The bulk update maps the all-zero state to itself when the local
charge density vanishes. -/
lemma bulk_update_zfn (p : Params) (hrho : rho_loc p zfn (p.N - 1) = 0) :
    bulk_update p zfn zfn = zfn := by
  have hval : (1 - p.omega) * zfn (p.N - 1) + p.omega *
      (zfn (p.N - 2) + rho_loc p zfn (p.N - 1) * p.dz_hat ^ 2 * p.eps (p.N - 1) / 2) = 0 := by
    rw [hrho]
    simp [zfn]
  unfold bulk_update
  rw [hval, update_zero_fn]

/-- A full sweep fixes the all-zero potential under zero sources. -/
lemma sweepAux_zfn (p : Params) (h1 : p.sigma_hat = 0) (h2 : p.c_imp = 0)
    (h3 : ∀ i, p.pmf_cat i = 0) (h4 : ∀ i, p.pmf_an i = 0)
    (h6 : ∀ i, p.rho_hat i = 0) :
    sweepAux p zfn zfn = zfn := by
  have hrho := rho_loc_zfn p h2 h3 h4 h6
  unfold sweepAux
  rw [wall_update_zfn p h1 (hrho 0)]
  unfold interiorFold
  rw [interiorFold_zfn p hrho, bulk_update_zfn p (hrho _)]

/-- The RMS difference of the all-zero array against itself is 0. -/
lemma relErr_zfn (N : ℕ) : relErr N zfn zfn = 0 := by
  unfold relErr zfn
  simp

/-- C5: with zero surface charge, identically zero PMF profiles, zero
external charge density and zero impurity concentration, the solve
started from main's Gouy-Chapman seed terminates (here after a single
sweep) for every grid size N >= 2 and every strictly positive
permittivity profile, and the returned potential is 0 at every grid
point. -/
theorem zero_charge_trivial (p : Params) (zz_hat : ℕ → ℝ)
    (h1 : p.sigma_hat = 0)
    (h3 : ∀ i, p.pmf_cat i = 0) (h4 : ∀ i, p.pmf_an i = 0)
    (hic : ∀ i, p.pmf_imp_cat i = 0) (hia : ∀ i, p.pmf_imp_an i = 0)
    (h6 : ∀ i, p.rho_hat i = 0) (h2 : p.c_imp = 0)
    (hN : 2 ≤ p.N) (heps : ∀ i, 0 < p.eps i) :
    ∃ fuel r,
      iteration_loop p tolDefault fuel (psi_start p.N p.eps p.sigma_hat zz_hat) = some r ∧
        ∀ i, r i = 0 := by
  have hstart : psi_start p.N p.eps p.sigma_hat zz_hat = zfn := by
    funext i
    unfold psi_start zfn
    rw [h1]
    simp
  refine ⟨1, zfn, ?_, fun i => rfl⟩
  rw [hstart]
  unfold iteration_loop
  have hswz := sweepAux_zfn p h1 h2 h3 h4 h6
  show (if relErr p.N (sweepAux p zfn zfn) zfn ≤ tolDefault
        then some (sweepAux p zfn zfn)
        else loopFuel p tolDefault 0 (sweepAux p zfn zfn) (sweepAux p zfn zfn)) = some zfn
  rw [hswz, relErr_zfn]
  rw [if_pos (show (0 : ℝ) ≤ tolDefault by norm_num [tolDefault])]

/-- Witness for C5 on the concrete parameter set pW. -/
theorem zero_charge_trivial_witness :
    (pW.sigma_hat = 0 ∧ (∀ i, pW.pmf_cat i = 0) ∧ (∀ i, pW.pmf_an i = 0) ∧
      (∀ i, pW.pmf_imp_cat i = 0) ∧ (∀ i, pW.pmf_imp_an i = 0) ∧
      (∀ i, pW.rho_hat i = 0) ∧ pW.c_imp = 0 ∧ 2 ≤ pW.N ∧ ∀ i, 0 < pW.eps i) ∧
    ∃ fuel r,
      iteration_loop pW tolDefault fuel (psi_start pW.N pW.eps pW.sigma_hat zfn) = some r ∧
        ∀ i, r i = 0 :=
  ⟨⟨rfl, fun _ => rfl, fun _ => rfl, fun _ => rfl, fun _ => rfl, fun _ => rfl,
      rfl, by decide, fun _ => one_pos⟩,
    zero_charge_trivial pW zfn rfl (fun _ => rfl) (fun _ => rfl) (fun _ => rfl)
      (fun _ => rfl) (fun _ => rfl) rfl (by decide) (fun _ => one_pos)⟩

/-- Mirror-concatenation [x, reverse(x)] used by showData for the
potential and all density profiles. -/
def symmetrize (x : List ℝ) : List ℝ := x ++ x.reverse

/-- The last entry zz[-1] of the half-domain coordinate array. -/
def zLast (zz : List ℝ) : ℝ := zz.getD (zz.length - 1) 0

/-- The full-domain coordinate array [z, z + z_max] of showData. -/
def symm_zz (zz : List ℝ) : List ℝ := zz ++ zz.map (fun z => z + zLast zz)

/-- The full-domain potential output of showData:
psi_to_phi * concatenate(psi, psi reversed). -/
def symm_psi (psi_to_phi : ℝ) (psi : List ℝ) : List ℝ :=
  (symmetrize psi).map (fun v => psi_to_phi * v)

/-- Mirror-concatenation produces a palindrome. -/
lemma symmetrize_reverse (x : List ℝ) : (symmetrize x).reverse = symmetrize x := by
  unfold symmetrize
  rw [List.reverse_append, List.reverse_reverse]

/-- C6: every symmetrized output array of length 2N is its own mirror
image (out[i] = out[2N-1-i]); the scaled potential output is itself a
mirror-concatenation of the scaled half array; and the full-domain
coordinate array is [z, z + z_max]. -/
theorem symmetrized_outputs_mirror (c : ℝ) (x zz : List ℝ) (i : ℕ)
    (h : i < 2 * x.length) :
    (symmetrize x).getD i 0 = (symmetrize x).getD (2 * x.length - 1 - i) 0 ∧
      symm_psi c x = symmetrize (x.map (fun v => c * v)) ∧
      symm_zz zz = zz ++ zz.map (fun z => z + zLast zz) := by
  refine ⟨?_, ?_, rfl⟩
  · have hlen : (symmetrize x).length = 2 * x.length := by
      simp [symmetrize, two_mul]
    have key : (symmetrize x).reverse.getD i 0 =
        (symmetrize x).getD ((symmetrize x).length - 1 - i) 0 := by
      rw [List.getD_eq_getElem _ _ (by rw [List.length_reverse]; omega),
        List.getD_eq_getElem _ _ (by omega), List.getElem_reverse]
    rw [symmetrize_reverse, hlen] at key
    exact key
  · unfold symm_psi symmetrize
    rw [List.map_append, List.map_reverse]

/-- Witness for C6 at a concrete one-entry half array. -/
theorem symmetrized_outputs_mirror_witness :
    0 < 2 * [(5 : ℝ)].length ∧
      ((symmetrize [(5 : ℝ)]).getD 0 0 =
          (symmetrize [(5 : ℝ)]).getD (2 * [(5 : ℝ)].length - 1 - 0) 0 ∧
        symm_psi 2 [(5 : ℝ)] = symmetrize ([(5 : ℝ)].map (fun v => 2 * v)) ∧
        symm_zz [(5 : ℝ)] = [(5 : ℝ)] ++ [(5 : ℝ)].map (fun z => z + zLast [(5 : ℝ)])) :=
  ⟨by norm_num, symmetrized_outputs_mirror 2 [(5 : ℝ)] [(5 : ℝ)] 0 (by norm_num)⟩

/-- Boltzmann constant in SI units (scipy.constants.Boltzmann). -/
def Boltzmann : ℝ := 1.380649e-23

/-- Avogadro constant (scipy.constants.Avogadro). -/
def Avogadro : ℝ := 6.02214076e23

/-- Elementary charge in SI units (scipy.constants.elementary_charge). -/
def elementary_charge : ℝ := 1.602176634e-19

/-- Vacuum permittivity in SI units (scipy.constants.epsilon_0). -/
def epsilon_0 : ℝ := 8.8541878128e-12

/-- Nanometre in metres. -/
def nm_to_m : ℝ := 1e-9

/-- np.linspace(a, b, n): n equally spaced points from a to b. -/
def linspace (a b : ℝ) (n : ℕ) : ℕ → ℝ :=
  fun i => a + (b - a) * i / ((n : ℝ) - 1)

/-- Result record of convert_units. -/
structure ConvertOut where
  zz_hat : ℕ → ℝ
  kappa : ℝ
  c_0 : ℝ
  c_imp : ℝ
  beta : ℝ
  dz_hat : ℝ
  sigma_hat : ℝ
  rho_hat : ℕ → ℝ

/-- convert_units: the nondimensionalizer.  Pure function of its
arguments (the source reads no global state and mutates nothing); each
let mirrors one assignment of the source. -/
def convert_units (bins : ℕ) (temp dist sig : ℝ) (rho : ℕ → ℝ)
    (valency c_0 c_imp : ℝ) : ConvertOut :=
  let beta := 1 / (Boltzmann * temp)
  let c0 := Avogadro * c_0 * 1e3
  let cimp := Avogadro * c_imp * 1e-6 / (c0 * valency)
  let sigma := sig * elementary_charge / nm_to_m ^ 2
  let rhoSI := fun i => rho i * elementary_charge / nm_to_m ^ 3
  let kappa := elementary_charge * valency * Real.sqrt (beta * c0 / epsilon_0)
  let zz_hat := fun i => linspace 0 (dist / 2) bins i * nm_to_m * kappa
  let dz_hat := |zz_hat 0 - zz_hat 1|
  let sigma_hat := sigma * Real.sqrt beta / Real.sqrt (epsilon_0 * c0)
  let rho_hat := fun i => rhoSI i / (elementary_charge * c0 * valency)
  ⟨zz_hat, kappa, c0, cimp, beta, dz_hat, sigma_hat, rho_hat⟩

/-- C7: the rescaled surface charge returned by convert_units is
sigma * sqrt(beta) / sqrt(epsilon_0 * c_0), where sigma is the supplied
surface charge converted to SI units (C/m^2), beta = 1/(k_B*T), and
c_0 is the bulk concentration converted to particles per m^3.
convert_units is a plain function of its arguments, so the purity part
of the claim is structural in this model. -/
theorem convert_units_sigma_hat (bins : ℕ) (temp dist sig : ℝ) (rho : ℕ → ℝ)
    (valency c_0 c_imp : ℝ) :
    (convert_units bins temp dist sig rho valency c_0 c_imp).sigma_hat =
      sig * elementary_charge / nm_to_m ^ 2 * Real.sqrt (1 / (Boltzmann * temp)) /
        Real.sqrt (epsilon_0 * (Avogadro * c_0 * 1e3)) := rfl

/-- The scalar arguments of iteration_loop (everything except the
mutable buffers and the profile arrays). -/
structure Scal where
  N : ℕ
  omega : ℝ
  dz_hat : ℝ
  val_cat : ℝ
  val_an : ℝ
  sigma_hat : ℝ
  c_imp : ℝ

/-- Full mutable state of iteration_loop: the working potential
buffer, the previous-sweep buffer, and the six profile arrays passed
in by the caller. -/
structure SolverState where
  psi : ℕ → ℝ
  psi_prev : ℕ → ℝ
  eps : ℕ → ℝ
  rho_hat : ℕ → ℝ
  pmf_cat : ℕ → ℝ
  pmf_an : ℕ → ℝ
  pmf_imp_cat : ℕ → ℝ
  pmf_imp_an : ℕ → ℝ

/-- Reassemble the Params record from the scalars and the profile
arrays held in the state. -/
def paramsOf (sc : Scal) (st : SolverState) : Params :=
  ⟨sc.N, sc.omega, sc.dz_hat, sc.val_cat, sc.val_an, sc.sigma_hat, sc.c_imp,
    st.eps, st.rho_hat, st.pmf_cat, st.pmf_an, st.pmf_imp_cat, st.pmf_imp_an⟩

/-- One sweep of the loop body acting on the full state: every
assignment of the source writes the psi buffer only. -/
def sweepState (sc : Scal) (st : SolverState) : SolverState :=
  { st with psi := sweepAux (paramsOf sc st) st.psi_prev st.psi }

/-- The while-loop on the full state: sweep, test the RMS difference
of psi against psi_prev, and either return or copy psi into psi_prev
and continue. -/
def loopState (sc : Scal) (tol : ℝ) : ℕ → SolverState → Option SolverState
  | 0, _ => none
  | n + 1, st =>
    let st1 := sweepState sc st
    if relErr sc.N st1.psi st1.psi_prev ≤ tol then some st1
    else loopState sc tol n { st1 with psi_prev := st1.psi }

/-- C8: however many sweeps it runs, iteration_loop leaves all six
input profile arrays element-for-element unchanged; only the psi and
psi_prev buffers are written. -/
theorem profiles_not_mutated (sc : Scal) (tol : ℝ) :
    ∀ (fuel : ℕ) (st st' : SolverState), loopState sc tol fuel st = some st' →
      st'.eps = st.eps ∧ st'.rho_hat = st.rho_hat ∧
        st'.pmf_cat = st.pmf_cat ∧ st'.pmf_an = st.pmf_an ∧
        st'.pmf_imp_cat = st.pmf_imp_cat ∧ st'.pmf_imp_an = st.pmf_imp_an := by
  intro fuel
  induction fuel with
  | zero => intro st st' h; exact absurd h (by simp [loopState])
  | succ n ih =>
    intro st st' h
    rw [show loopState sc tol (n + 1) st =
        (if relErr sc.N (sweepState sc st).psi (sweepState sc st).psi_prev ≤ tol
         then some (sweepState sc st)
         else loopState sc tol n
           { sweepState sc st with psi_prev := (sweepState sc st).psi }) from rfl] at h
    by_cases hc : relErr sc.N (sweepState sc st).psi (sweepState sc st).psi_prev ≤ tol
    · rw [if_pos hc] at h
      obtain rfl : sweepState sc st = st' := Option.some_inj.mp h
      exact ⟨rfl, rfl, rfl, rfl, rfl, rfl⟩
    · rw [if_neg hc] at h
      exact ih { sweepState sc st with psi_prev := (sweepState sc st).psi } st' h

/-- Concrete zero scalars on a two-point grid, for the witnesses. -/
def scW : Scal := ⟨2, 1, 0, 1, 1, 0, 0⟩

/-- Concrete all-zero solver state with unit permittivity. -/
def stW : SolverState := ⟨zfn, zfn, fun _ => 1, zfn, zfn, zfn, zfn, zfn⟩

/-- On the concrete zero state, one sweep already meets the
convergence test, so the state loop returns after a single sweep. -/
lemma loopState_stW : loopState scW tolDefault 1 stW = some (sweepState scW stW) := by
  have hsz : sweepAux (paramsOf scW stW) stW.psi_prev stW.psi = zfn :=
    sweepAux_zfn (paramsOf scW stW) rfl rfl (fun _ => rfl) (fun _ => rfl) (fun _ => rfl)
  show (if relErr scW.N (sweepState scW stW).psi (sweepState scW stW).psi_prev ≤ tolDefault
        then some (sweepState scW stW)
        else loopState scW tolDefault 0
          { sweepState scW stW with psi_prev := (sweepState scW stW).psi }) =
      some (sweepState scW stW)
  have hpsi : (sweepState scW stW).psi = zfn := hsz
  have hprev : (sweepState scW stW).psi_prev = zfn := rfl
  rw [hpsi, hprev, relErr_zfn]
  rw [if_pos (show (0 : ℝ) ≤ tolDefault by norm_num [tolDefault])]

/-- Witness for C8: the concrete one-sweep run returns with all six
profile arrays unchanged. -/
theorem profiles_not_mutated_witness :
    loopState scW tolDefault 1 stW = some (sweepState scW stW) ∧
      ((sweepState scW stW).eps = stW.eps ∧
        (sweepState scW stW).rho_hat = stW.rho_hat ∧
        (sweepState scW stW).pmf_cat = stW.pmf_cat ∧
        (sweepState scW stW).pmf_an = stW.pmf_an ∧
        (sweepState scW stW).pmf_imp_cat = stW.pmf_imp_cat ∧
        (sweepState scW stW).pmf_imp_an = stW.pmf_imp_an) :=
  ⟨loopState_stW, profiles_not_mutated scW tolDefault 1 stW (sweepState scW stW) loopState_stW⟩

/-- A heap of numbered array buffers, with a fresh-allocation counter:
buffer identity is a natural-number id, so aliasing between the
caller's array and the solver's working buffer is expressible. -/
structure Heap where
  arrays : ℕ → ℕ → ℝ
  next : ℕ

/-- Overwrite one buffer of the heap in place. -/
def hwrite (h : Heap) (id : ℕ) (v : ℕ → ℝ) : Heap :=
  ⟨Function.update h.arrays id v, h.next⟩

/-- The while-loop of iteration_loop on the heap: psiId is the buffer
the caller passed as psi_start (aliased by the local name psi, source
line psi = psi_start), prevId the separately allocated previous-sweep
buffer.  Each sweep writes the psi buffer in place; on convergence the
function returns the id of the psi buffer. -/
def loopHeap (p : Params) (tol : ℝ) (psiId prevId : ℕ) :
    ℕ → Heap → Option (ℕ × Heap)
  | 0, _ => none
  | n + 1, h =>
    let psiNew := sweepAux p (h.arrays prevId) (h.arrays psiId)
    let h1 := hwrite h psiId psiNew
    if relErr p.N (h1.arrays psiId) (h1.arrays prevId) ≤ tol then some (psiId, h1)
    else loopHeap p tol psiId prevId n (hwrite h1 prevId (h1.arrays psiId))

/-- iteration_loop on the heap: allocate the previous-sweep buffer as
a fresh id holding a copy of the start values, then loop. -/
def iteration_loop_heap (p : Params) (tol : ℝ) (fuel : ℕ) (psiId : ℕ)
    (h : Heap) : Option (ℕ × Heap) :=
  loopHeap p tol psiId h.next fuel
    ⟨Function.update h.arrays h.next (h.arrays psiId), h.next + 1⟩

/-- The heap loop refines the functional loop: it returns the id of
the caller's buffer, whose final contents are the functional loop's
result. -/
lemma loopHeap_refines (p : Params) (tol : ℝ) (psiId prevId : ℕ)
    (hne : psiId ≠ prevId) :
    ∀ (fuel : ℕ) (h : Heap) (r : ℕ) (h' : Heap),
      loopHeap p tol psiId prevId fuel h = some (r, h') →
        r = psiId ∧
          loopFuel p tol fuel (h.arrays psiId) (h.arrays prevId) =
            some (h'.arrays psiId) := by
  intro fuel
  induction fuel with
  | zero => intro h r h' hh; exact absurd hh (by simp [loopHeap])
  | succ n ih =>
    intro h r h' hh
    rw [show loopHeap p tol psiId prevId (n + 1) h =
        (if relErr p.N
              ((hwrite h psiId (sweepAux p (h.arrays prevId) (h.arrays psiId))).arrays psiId)
              ((hwrite h psiId (sweepAux p (h.arrays prevId) (h.arrays psiId))).arrays prevId) ≤ tol
         then some (psiId, hwrite h psiId (sweepAux p (h.arrays prevId) (h.arrays psiId)))
         else loopHeap p tol psiId prevId n
           (hwrite (hwrite h psiId (sweepAux p (h.arrays prevId) (h.arrays psiId))) prevId
             ((hwrite h psiId (sweepAux p (h.arrays prevId) (h.arrays psiId))).arrays psiId)))
      from rfl] at hh
    have e1 : (hwrite h psiId (sweepAux p (h.arrays prevId) (h.arrays psiId))).arrays psiId =
        sweepAux p (h.arrays prevId) (h.arrays psiId) := Function.update_same _ _ _
    have e2 : (hwrite h psiId (sweepAux p (h.arrays prevId) (h.arrays psiId))).arrays prevId =
        h.arrays prevId := Function.update_noteq (fun hx => hne hx.symm) _ _
    rw [e1, e2] at hh
    have hstep : loopFuel p tol (n + 1) (h.arrays psiId) (h.arrays prevId) =
        (if relErr p.N (sweepAux p (h.arrays prevId) (h.arrays psiId)) (h.arrays prevId) ≤ tol
         then some (sweepAux p (h.arrays prevId) (h.arrays psiId))
         else loopFuel p tol n (sweepAux p (h.arrays prevId) (h.arrays psiId))
           (sweepAux p (h.arrays prevId) (h.arrays psiId))) := rfl
    by_cases hc : relErr p.N (sweepAux p (h.arrays prevId) (h.arrays psiId)) (h.arrays prevId) ≤ tol
    · rw [if_pos hc] at hh
      have hpair := Option.some_inj.mp hh
      have hr : psiId = r := congrArg Prod.fst hpair
      have hheap : hwrite h psiId (sweepAux p (h.arrays prevId) (h.arrays psiId)) = h' :=
        congrArg Prod.snd hpair
      subst hr
      refine ⟨rfl, ?_⟩
      rw [hstep, if_pos hc, ← hheap, e1]
    · rw [if_neg hc] at hh
      have hrec := ih _ r h' hh
      rw [hstep, if_neg hc]
      have e3 : (hwrite (hwrite h psiId (sweepAux p (h.arrays prevId) (h.arrays psiId))) prevId
          (sweepAux p (h.arrays prevId) (h.arrays psiId))).arrays psiId =
          sweepAux p (h.arrays prevId) (h.arrays psiId) := by
        show Function.update _ prevId _ psiId = _
        rw [Function.update_noteq hne]
        exact e1
      have e4 : (hwrite (hwrite h psiId (sweepAux p (h.arrays prevId) (h.arrays psiId))) prevId
          (sweepAux p (h.arrays prevId) (h.arrays psiId))).arrays prevId =
          sweepAux p (h.arrays prevId) (h.arrays psiId) := Function.update_same _ _ _
      rw [e3, e4] at hrec
      exact hrec

/-- C10: iteration_loop returns the very buffer it was handed as
psi_start (same id, no defensive copy of the working array), and after
the call that buffer holds the converged solution of the functional
model, so the caller's initial guess has been overwritten in place. -/
theorem solver_aliases_start_buffer (p : Params) (tol : ℝ) (fuel psiId : ℕ)
    (h : Heap) (r : ℕ) (h' : Heap) (hid : psiId < h.next)
    (hrun : iteration_loop_heap p tol fuel psiId h = some (r, h')) :
    r = psiId ∧ iteration_loop p tol fuel (h.arrays psiId) = some (h'.arrays psiId) := by
  have hne : psiId ≠ h.next := Nat.ne_of_lt hid
  have hinit := loopHeap_refines p tol psiId h.next hne fuel
    ⟨Function.update h.arrays h.next (h.arrays psiId), h.next + 1⟩ r h' hrun
  rw [show (Heap.mk (Function.update h.arrays h.next (h.arrays psiId)) (h.next + 1)).arrays psiId =
      h.arrays psiId from Function.update_noteq hne _ _,
    show (Heap.mk (Function.update h.arrays h.next (h.arrays psiId)) (h.next + 1)).arrays h.next =
      h.arrays psiId from Function.update_same _ _ _] at hinit
  exact hinit

/-- Concrete heap with a single all-zero buffer at id 0. -/
def hW : Heap := ⟨fun _ => zfn, 1⟩

/-- Parameter record matching scW with unit permittivity and zero
profiles. -/
def pW2 : Params := ⟨2, 1, 0, 1, 1, 0, 0, fun _ => 1, zfn, zfn, zfn, zfn, zfn⟩

/-- On the concrete zero heap the solve returns after one sweep,
yielding buffer id 0 again. -/
lemma heap_run_concrete :
    iteration_loop_heap pW2 tolDefault 1 0 hW =
      some (0, hwrite ⟨Function.update hW.arrays 1 (hW.arrays 0), 2⟩ 0 zfn) := by
  have hz0 : (Function.update hW.arrays 1 (hW.arrays 0)) 0 = zfn :=
    Function.update_noteq (by omega) _ _
  have hz1 : (Function.update hW.arrays 1 (hW.arrays 0)) 1 = zfn :=
    Function.update_same _ _ _
  show (if relErr pW2.N
          ((hwrite ⟨Function.update hW.arrays 1 (hW.arrays 0), 2⟩ 0
            (sweepAux pW2 ((Function.update hW.arrays 1 (hW.arrays 0)) 1)
              ((Function.update hW.arrays 1 (hW.arrays 0)) 0))).arrays 0)
          ((hwrite ⟨Function.update hW.arrays 1 (hW.arrays 0), 2⟩ 0
            (sweepAux pW2 ((Function.update hW.arrays 1 (hW.arrays 0)) 1)
              ((Function.update hW.arrays 1 (hW.arrays 0)) 0))).arrays 1) ≤ tolDefault
        then some (0, hwrite ⟨Function.update hW.arrays 1 (hW.arrays 0), 2⟩ 0
          (sweepAux pW2 ((Function.update hW.arrays 1 (hW.arrays 0)) 1)
            ((Function.update hW.arrays 1 (hW.arrays 0)) 0)))
        else _) = _
  rw [hz0, hz1]
  have hsz : sweepAux pW2 zfn zfn = zfn :=
    sweepAux_zfn pW2 rfl rfl (fun _ => rfl) (fun _ => rfl) (fun _ => rfl)
  rw [hsz]
  have ha0 : (hwrite ⟨Function.update hW.arrays 1 (hW.arrays 0), 2⟩ 0 zfn).arrays 0 = zfn := by
    show Function.update (Function.update hW.arrays 1 (hW.arrays 0)) 0 zfn 0 = zfn
    rw [Function.update_same]
  have ha1 : (hwrite ⟨Function.update hW.arrays 1 (hW.arrays 0), 2⟩ 0 zfn).arrays 1 = zfn := by
    show Function.update (Function.update hW.arrays 1 (hW.arrays 0)) 0 zfn 1 = zfn
    rw [Function.update_noteq (by omega)]
    exact hz1
  rw [ha0, ha1, relErr_zfn]
  rw [if_pos (show (0 : ℝ) ≤ tolDefault by norm_num [tolDefault])]

/-- Witness for C10 on the concrete zero heap. -/
theorem solver_aliases_start_buffer_witness :
    0 < hW.next ∧
      ((0 : ℕ) = 0 ∧
        iteration_loop pW2 tolDefault 1 (hW.arrays 0) =
          some ((hwrite ⟨Function.update hW.arrays 1 (hW.arrays 0), 2⟩ 0 zfn).arrays 0)) :=
  ⟨Nat.zero_lt_one,
    solver_aliases_start_buffer pW2 tolDefault 1 0 hW 0
      (hwrite ⟨Function.update hW.arrays 1 (hW.arrays 0), 2⟩ 0 zfn)
      Nat.zero_lt_one heap_run_concrete⟩

/-- A profile source on the command line: absent (None), a numeric
constant (a string float(path) accepts), or the numeric contents of a
profile file. -/
def ProfileSrc : Type := Option (ℝ ⊕ List ℝ)

/-- Load one profile as parse_command_line does: an absent argument
becomes a constant default profile, a numeric argument a constant
profile, and file data is accepted only when its length equals the bin
count N (the assert in the loader). -/
def loadProfile (N : ℕ) (dflt : ℝ) : ProfileSrc → Except String (List ℝ)
  | none => .ok (List.replicate N dflt)
  | some (.inl c) => .ok (List.replicate N c)
  | some (.inr dat) =>
    if dat.length = N then .ok dat
    else .error ("ERROR: Supplied profile does not have the same length as discretization vector!")

/-- Load the six profiles in the loader's order, stopping at the first
failing length check. -/
def loadProfiles (N : ℕ) : List (ProfileSrc × ℝ) → Except String (List (List ℝ))
  | [] => .ok []
  | (a, d) :: rest =>
    match loadProfile N d a with
    | .error e => .error e
    | .ok dat =>
      match loadProfiles N rest with
      | .error e => .error e
      | .ok ps => .ok (dat :: ps)

/-- Unpack the valency argument: one entry is used for both species,
two entries are cation and anion valency, and anything else aborts
(the length assert for more than two entries, the tuple unpacking for
an empty list). -/
def parse_valency : List ℤ → Except String (ℤ × ℤ)
  | [v] => .ok (v, v)
  | [v, w] => .ok (v, w)
  | _ => .error ("ERROR: List for ion valencies can only have two entries [val_cation, val_anion]!")

/-- Whether a source is file data whose length differs from N. -/
def isFileBad (N : ℕ) : ProfileSrc → Bool
  | some (.inr dat) => dat.length != N
  | _ => false

/-- Whether a run of the pipeline aborted with an error. -/
def isErr {α : Type} : Except String α → Bool
  | .error _ => true
  | .ok _ => false

/-- The main pipeline: load and validate the profiles and the valency
list, then nondimensionalize, build the starting iterate and run the
relaxation loop.  The solver stage is reached only when every
validation step succeeded. -/
def mainModel (N : ℕ) (epsA rhoA pcA paA picA piaA : ProfileSrc)
    (valency : List ℤ) (temp dist sigma c0pre cimppre : ℝ) (fuel : ℕ) :
    Except String (Option (ℕ → ℝ)) :=
  match loadProfiles N [(epsA, 1), (rhoA, 0), (pcA, 0), (paA, 0), (picA, 0), (piaA, 0)] with
  | .error e => .error e
  | .ok ps =>
    match parse_valency valency with
    | .error e => .error e
    | .ok (vc, va) =>
      let toFun : List ℝ → ℕ → ℝ := fun l i => l.getD i 0
      let eps := toFun (ps.getD 0 [])
      let val_max : ℝ := max (vc : ℝ) (va : ℝ)
      let co := convert_units N temp dist sigma (toFun (ps.getD 1 [])) val_max c0pre cimppre
      let p : Params :=
        ⟨N, 2 / (1 + Real.sqrt (Real.pi / N)), co.dz_hat, (vc : ℝ), (va : ℝ),
          co.sigma_hat, co.c_imp, eps, co.rho_hat, toFun (ps.getD 2 []),
          toFun (ps.getD 3 []), toFun (ps.getD 4 []), toFun (ps.getD 5 [])⟩
      .ok (iteration_loop p tolDefault fuel (psi_start N eps co.sigma_hat co.zz_hat))

/-- A source failing the length check makes loadProfile abort. -/
lemma loadProfile_bad (N : ℕ) (d : ℝ) (a : ProfileSrc)
    (h : isFileBad N a = true) : ∃ e, loadProfile N d a = .error e := by
  match a with
  | none => exact absurd h (by simp [isFileBad])
  | some (.inl c) => exact absurd h (by simp [isFileBad])
  | some (.inr dat) =>
    have hne : dat.length ≠ N := by
      simpa [isFileBad] using h
    exact ⟨"ERROR: Supplied profile does not have the same length as discretization vector!",
      by simp [loadProfile, hne]⟩

/-- If any listed source fails the length check, the profile loader
aborts with an error. -/
lemma loadProfiles_bad (N : ℕ) :
    ∀ l : List (ProfileSrc × ℝ), (∃ pr ∈ l, isFileBad N pr.1 = true) →
      ∃ e, loadProfiles N l = .error e := by
  intro l
  induction l with
  | nil => rintro ⟨pr, hpr, _⟩; exact absurd hpr (List.not_mem_nil pr)
  | cons hd tl ih =>
    rintro ⟨pr, hpr, hbad⟩
    obtain ⟨a, d⟩ := hd
    rcases List.mem_cons.mp hpr with heq | hmem
    · subst heq
      obtain ⟨e, he⟩ := loadProfile_bad N d a (by simpa using hbad)
      exact ⟨e, by simp [loadProfiles, he]⟩
    · match hload : loadProfile N d a with
      | .error e => exact ⟨e, by simp [loadProfiles, hload]⟩
      | .ok dat =>
        obtain ⟨e, he⟩ := ih ⟨pr, hmem, hbad⟩
        exact ⟨e, by simp [loadProfiles, hload, he]⟩

/-- A valency list longer than two entries makes parse_valency abort. -/
lemma parse_valency_long (l : List ℤ) (h : 2 < l.length) :
    ∃ e, parse_valency l = .error e := by
  match l with
  | [] => exact absurd h (by simp)
  | [v] => exact absurd h (by simp)
  | [v, w] => exact absurd h (by simp)
  | v :: w :: u :: t => exact ⟨_, rfl⟩

/-- C9: a profile file of the wrong length, or a valency list of more
than two entries, aborts the pipeline before the nondimensionalizer or
the solver can run: mainModel returns an error and never reaches the
stage that builds the solve. -/
theorem bad_input_aborts (N : ℕ) (epsA rhoA pcA paA picA piaA : ProfileSrc)
    (valency : List ℤ) (temp dist sigma c0pre cimppre : ℝ) (fuel : ℕ)
    (hbad : isFileBad N epsA = true ∨ isFileBad N rhoA = true ∨
      isFileBad N pcA = true ∨ isFileBad N paA = true ∨
      isFileBad N picA = true ∨ isFileBad N piaA = true ∨ 2 < valency.length) :
    isErr (mainModel N epsA rhoA pcA paA picA piaA valency
      temp dist sigma c0pre cimppre fuel) = true := by
  have hprofile : (∃ pr ∈ [(epsA, (1 : ℝ)), (rhoA, 0), (pcA, 0), (paA, 0), (picA, 0), (piaA, 0)],
      isFileBad N pr.1 = true) ∨ 2 < valency.length := by
    rcases hbad with h | h | h | h | h | h | h
    · exact Or.inl ⟨(epsA, 1), by simp, h⟩
    · exact Or.inl ⟨(rhoA, 0), by simp, h⟩
    · exact Or.inl ⟨(pcA, 0), by simp, h⟩
    · exact Or.inl ⟨(paA, 0), by simp, h⟩
    · exact Or.inl ⟨(picA, 0), by simp, h⟩
    · exact Or.inl ⟨(piaA, 0), by simp, h⟩
    · exact Or.inr h
  rcases hprofile with h | h
  · obtain ⟨e, he⟩ := loadProfiles_bad N _ h
    unfold mainModel
    rw [he]
    rfl
  · match hload : loadProfiles N [(epsA, 1), (rhoA, 0), (pcA, 0), (paA, 0), (picA, 0), (piaA, 0)] with
    | .error e =>
      unfold mainModel
      rw [hload]
      rfl
    | .ok ps =>
      obtain ⟨e, he⟩ := parse_valency_long valency h
      unfold mainModel
      rw [hload, he]
      rfl

/-- Witness for C9: a one-entry permittivity file on a two-bin grid is
rejected. -/
theorem bad_input_aborts_witness :
    (isFileBad 2 (some (.inr [(0 : ℝ)])) = true ∨ isFileBad 2 none = true ∨
      isFileBad 2 none = true ∨ isFileBad 2 none = true ∨
      isFileBad 2 none = true ∨ isFileBad 2 none = true ∨ 2 < [(1 : ℤ)].length) ∧
      isErr (mainModel 2 (some (.inr [(0 : ℝ)])) none none none none none
        [(1 : ℤ)] 300 1 0 1 0 1) = true :=
  ⟨Or.inl (by simp [isFileBad]),
    bad_input_aborts 2 (some (.inr [(0 : ℝ)])) none none none none none
      [(1 : ℤ)] 300 1 0 1 0 1 (Or.inl (by simp [isFileBad]))⟩

end
